import Mathlib

/-!
Verification of the `reftake` stream-limiting adapter (`src/lib.rs`).

The adapter `RefTake` wraps a mutable reference to a reader together with a
byte counter `limit` (the spec calls it `remaining`).  We shallow-embed it as
a state-passing program: the underlying stream is an abstract `Reader` record
over a state type `σ` (its `read` takes the length of the slice it is handed
and reports how many bytes it placed there; `fill_buf` yields the look-ahead
buffer as a list of bytes; `consume` discards bytes), and each `RefTake`
operation is a pure function from the adapter state to a result plus a new
state.  A Rust `panic!` (the `assert!` in `read`) is modelled by a dedicated
`fatal` outcome carrying the adapter state at the abort point.  The `u64`
counter is modelled by `Nat`: every decrement in the source is guarded
(`assert!(n <= limit)`) or clamped (`cmp::min`), so no wrap-around can occur.
-/

/-- Abstract interface of the wrapped stream (Rust's `Read` + `BufRead`
capabilities), state-passing over a state type `σ` with error type `ε`.
`read s len` is handed a slice of length `len` and answers how many bytes it
placed (or an error); `fill_buf` yields the internal look-ahead buffer;
`consume` discards bytes from the front of that buffer. -/
structure Reader (σ ε : Type) where
  read : σ → Nat → Except ε Nat × σ
  fill_buf : σ → Except ε (List Nat) × σ
  consume : σ → Nat → σ

/-- The adapter state: the wrapped reader's state and the byte counter
`limit` (the spec's `remaining`).  Mirrors `struct RefTake { inner, limit }`. -/
structure RefTake (σ : Type) where
  inner : σ
  limit : Nat
deriving DecidableEq

/-- Outcome of one `RefTake::read` call: bytes read, propagated I/O error,
or the fatal `assert!` firing (`fatal` records the adapter state at the
abort point; the counter has not been decremented there). -/
inductive ReadResult (σ ε : Type) where
  | ok (n : Nat) (t : RefTake σ)
  | err (e : ε) (t : RefTake σ)
  | fatal (t : RefTake σ)
deriving DecidableEq

/-- The adapter state in any outcome of a read call. -/
def ReadResult.state : ReadResult σ ε → RefTake σ
  | .ok _ t => t
  | .err _ t => t
  | .fatal t => t

/-- `RefTake::wrap(inner, limit)`. -/
def RefTake.wrap (inner : σ) (limit : Nat) : RefTake σ :=
  ⟨inner, limit⟩

/-- `RefTakeExt::take_ref(limit)`, the extension-trait constructor: it just
delegates to `wrap`. -/
def take_ref (s : σ) (limit : Nat) : RefTake σ :=
  RefTake.wrap s limit

/-- `RefTake::set_limit(limit)`: unconditionally replaces the counter. -/
def RefTake.set_limit (t : RefTake σ) (limit : Nat) : RefTake σ :=
  { t with limit := limit }

/-- `RefTake::current_limit()`. -/
def RefTake.current_limit (t : RefTake σ) : Nat :=
  t.limit

/-- `<RefTake as Read>::read` with a caller buffer of capacity `C`:
short-circuit at `limit == 0`; otherwise hand the underlying reader a slice
of length `min C limit`, propagate its error, `assert!(n <= limit)`
(modelled as the `fatal` outcome), then decrement the counter by `n`. -/
def RefTake.read (rd : Reader σ ε) (t : RefTake σ) (C : Nat) : ReadResult σ ε :=
  if t.limit = 0 then
    .ok 0 t
  else
    match rd.read t.inner (min C t.limit) with
    | (.error e, s1) => .err e ⟨s1, t.limit⟩
    | (.ok n, s1) =>
      if n ≤ t.limit then .ok n ⟨s1, t.limit - n⟩
      else .fatal ⟨s1, t.limit⟩

/-- `<RefTake as BufRead>::fill_buf`: short-circuit at `limit == 0` with an
empty slice; otherwise return the prefix of the underlying buffer of length
`min buf.len() limit` (Rust's `&buf[..cap]`).  The counter is untouched. -/
def RefTake.fill_buf (rd : Reader σ ε) (t : RefTake σ) :
    Except ε (List Nat) × RefTake σ :=
  if t.limit = 0 then
    (.ok [], t)
  else
    match rd.fill_buf t.inner with
    | (.error e, s1) => (.error e, ⟨s1, t.limit⟩)
    | (.ok buf, s1) => (.ok (buf.take (min buf.length t.limit)), ⟨s1, t.limit⟩)

/-- `<RefTake as BufRead>::consume(amt)`: clamp `amt` to the counter, then
decrement the counter and forward the clamped amount to the inner reader. -/
def RefTake.consume (rd : Reader σ ε) (t : RefTake σ) (amt : Nat) : RefTake σ :=
  let amt2 := min amt t.limit
  ⟨rd.consume t.inner amt2, t.limit - amt2⟩

/-- A sequence of `read` calls with the given buffer capacities: total bytes
returned across the calls, and the final adapter state.  An error call
returns no bytes and the sequence continues; a fatal assertion aborts the
sequence at the pre-call state. -/
def runReads (rd : Reader σ ε) : RefTake σ → List Nat → Nat × RefTake σ
  | t, [] => (0, t)
  | t, C :: Cs =>
    match RefTake.read rd t C with
    | .ok n t1 =>
      let r := runReads rd t1 Cs
      (n + r.1, r.2)
    | .err _ t1 => runReads rd t1 Cs
    | .fatal t1 => (0, t1)

/-- One call into the underlying stream, for observing exactly which
operations the adapter forwards and with what arguments. -/
inductive Call where
  | readCall (len : Nat)
  | fillBufCall
  | consumeCall (amt : Nat)
deriving DecidableEq

/-- Instrumented version of a reader: behaves exactly like `rd` but records
every call made into it, in order. -/
def logReader (rd : Reader σ ε) : Reader (σ × List Call) ε where
  read := fun s len =>
    let r := rd.read s.1 len
    (r.1, (r.2, s.2 ++ [.readCall len]))
  fill_buf := fun s =>
    let r := rd.fill_buf s.1
    (r.1, (r.2, s.2 ++ [.fillBufCall]))
  consume := fun s amt => (rd.consume s.1 amt, s.2 ++ [.consumeCall amt])

/-- The calls one `RefTake::read` with capacity `C` makes into the
underlying stream. -/
def readCalls (rd : Reader σ ε) (t : RefTake σ) (C : Nat) : List Call :=
  ((RefTake.read (logReader rd) ⟨(t.inner, []), t.limit⟩ C).state).inner.2

/-- The calls one `RefTake::fill_buf` makes into the underlying stream. -/
def fillBufCalls (rd : Reader σ ε) (t : RefTake σ) : List Call :=
  ((RefTake.fill_buf (logReader rd) ⟨(t.inner, []), t.limit⟩).2).inner.2

/-- The calls one `RefTake::consume` makes into the underlying stream. -/
def consumeCalls (rd : Reader σ ε) (t : RefTake σ) (amt : Nat) : List Call :=
  (RefTake.consume (logReader rd) ⟨(t.inner, []), t.limit⟩ amt).inner.2

/-- A reader honours the `Read` contract when it never reports more bytes
than the length of the slice it was handed. -/
def Conforming (rd : Reader σ ε) : Prop :=
  ∀ s len n s1, rd.read s len = (.ok n, s1) → n ≤ len

/-- In-memory cursor over a byte list (like `std::io::Cursor`): a concrete
conforming stream used to instantiate the theorems. -/
structure Cursor where
  data : List Nat
  pos : Nat
deriving DecidableEq

/-- The cursor as a `Reader`: reading yields `min len (bytes left)` bytes,
`fill_buf` exposes everything past the position, `consume` advances it.
It never errors. -/
def cursorReader : Reader Cursor Nat where
  read := fun c len =>
    let n := min len (c.data.length - c.pos)
    (.ok n, ⟨c.data, c.pos + n⟩)
  fill_buf := fun c => (.ok (c.data.drop c.pos), c)
  consume := fun c amt => ⟨c.data, c.pos + amt⟩

/-- The cursor honours the `Read` contract. -/
lemma cursorReader_conforming : Conforming cursorReader := by
  intro s len n s1 h
  simp only [cursorReader] at h
  cases h
  exact Nat.min_le_left _ _

/-- A stream whose every operation fails with error code 7: instantiates the
error-propagation theorems. -/
def failReader : Reader Unit Nat where
  read := fun s _ => (.error 7, s)
  fill_buf := fun s => (.error 7, s)
  consume := fun s _ => s

/-- A broken stream that always claims to have produced 100 bytes, whatever
slice it was handed: instantiates the fatal-assertion theorem. -/
def overReader : Reader Unit Nat where
  read := fun s _ => (.ok 100, s)
  fill_buf := fun s => (.ok [], s)
  consume := fun s _ => s

/-- On a successful read the counter drops by exactly the bytes returned. -/
lemma read_ok_limit (rd : Reader σ ε) (t : RefTake σ) (C n : Nat) (t1 : RefTake σ)
    (h : RefTake.read rd t C = .ok n t1) : t1.limit + n = t.limit := by
  unfold RefTake.read at h
  split at h
  · cases h
    omega
  · split at h
    · cases h
    · split at h
      · cases h
        dsimp only
        omega
      · cases h

/-- On a propagated error the counter is unchanged. -/
lemma read_err_limit (rd : Reader σ ε) (t : RefTake σ) (C : Nat) (e : ε) (t1 : RefTake σ)
    (h : RefTake.read rd t C = .err e t1) : t1.limit = t.limit := by
  unfold RefTake.read at h
  split at h
  · cases h
  · split at h
    · cases h
      rfl
    · split at h
      · cases h
      · cases h

/-- When the fatal assertion fires the counter has not been decremented. -/
lemma read_fatal_limit (rd : Reader σ ε) (t : RefTake σ) (C : Nat) (t1 : RefTake σ)
    (h : RefTake.read rd t C = .fatal t1) : t1.limit = t.limit := by
  unfold RefTake.read at h
  split at h
  · cases h
  · split at h
    · cases h
    · split at h
      · cases h
      · cases h
        rfl

/-- With the counter at zero, read returns 0 bytes and changes nothing. -/
lemma read_zero (rd : Reader σ ε) (t : RefTake σ) (C : Nat) (h : t.limit = 0) :
    RefTake.read rd t C = .ok 0 t := by
  unfold RefTake.read
  simp [h]

/-- `fill_buf` leaves the counter exactly as it was, in every case. -/
lemma fill_buf_limit (rd : Reader σ ε) (t : RefTake σ) :
    ((RefTake.fill_buf rd t).2).limit = t.limit := by
  unfold RefTake.fill_buf
  split
  · rfl
  · split <;> rfl

/-- Conservation law: over any sequence of read calls, the total bytes
returned plus the final counter equals the initial counter. -/
lemma runReads_budget (rd : Reader σ ε) (Cs : List Nat) :
    ∀ t : RefTake σ, (runReads rd t Cs).1 + ((runReads rd t Cs).2).limit = t.limit := by
  induction Cs with
  | nil => intro t; simp [runReads]
  | cons C Cs ih =>
    intro t
    unfold runReads
    cases hr : RefTake.read rd t C with
    | ok n t1 =>
      have h1 := read_ok_limit rd t C n t1 hr
      have h2 := ih t1
      dsimp only
      omega
    | err e t1 =>
      have h1 := read_err_limit rd t C e t1 hr
      have h2 := ih t1
      dsimp only
      omega
    | fatal t1 =>
      have h1 := read_fatal_limit rd t C t1 hr
      dsimp only
      omega

/-- Unfolding of `read` once the zero short-circuit is ruled out. -/
lemma read_pos_eq (rd : Reader σ ε) (t : RefTake σ) (C : Nat) (hpos : 0 < t.limit) :
    RefTake.read rd t C =
      match rd.read t.inner (min C t.limit) with
      | (.error e, s1) => .err e ⟨s1, t.limit⟩
      | (.ok n, s1) =>
        if n ≤ t.limit then .ok n ⟨s1, t.limit - n⟩
        else .fatal ⟨s1, t.limit⟩ := by
  unfold RefTake.read
  rw [if_neg (by omega)]

/-- With a positive counter, an inner error becomes an `err` outcome with
the error passed through verbatim and the counter unchanged. -/
lemma read_pos_err_case (rd : Reader σ ε) (t : RefTake σ) (C : Nat) (e : ε) (s1 : σ)
    (hpos : 0 < t.limit) (hinner : rd.read t.inner (min C t.limit) = (.error e, s1)) :
    RefTake.read rd t C = .err e ⟨s1, t.limit⟩ := by
  rw [read_pos_eq rd t C hpos, hinner]

/-- With a positive counter and an inner result within the limit, read
succeeds and decrements the counter by exactly `n`. -/
lemma read_pos_ok_case (rd : Reader σ ε) (t : RefTake σ) (C n : Nat) (s1 : σ)
    (hpos : 0 < t.limit) (hinner : rd.read t.inner (min C t.limit) = (.ok n, s1))
    (hn : n ≤ t.limit) :
    RefTake.read rd t C = .ok n ⟨s1, t.limit - n⟩ := by
  rw [read_pos_eq rd t C hpos, hinner]
  simp [hn]

/-- With a positive counter and an inner result above the limit, the
assertion fires. -/
lemma read_pos_fatal_case (rd : Reader σ ε) (t : RefTake σ) (C n : Nat) (s1 : σ)
    (hpos : 0 < t.limit) (hinner : rd.read t.inner (min C t.limit) = (.ok n, s1))
    (hn : t.limit < n) :
    RefTake.read rd t C = .fatal ⟨s1, t.limit⟩ := by
  rw [read_pos_eq rd t C hpos, hinner]
  simp [Nat.not_le.mpr hn]

/-- Conversely, a successful read with a positive counter came from an inner
read of the slice of length `min C limit` that reported `n ≤ limit` bytes. -/
lemma read_ok_inner (rd : Reader σ ε) (t : RefTake σ) (C n : Nat) (t1 : RefTake σ)
    (hpos : 0 < t.limit) (h : RefTake.read rd t C = .ok n t1) :
    rd.read t.inner (min C t.limit) = (.ok n, t1.inner) ∧ n ≤ t.limit := by
  rcases hv : rd.read t.inner (min C t.limit) with ⟨v, s1⟩
  rw [read_pos_eq rd t C hpos, hv] at h
  cases v with
  | error e => cases h
  | ok m =>
    dsimp only at h
    split at h
    next hm =>
      cases h
      exact ⟨rfl, hm⟩
    next hm => cases h

/-- At a zero counter, `read` makes no call into the underlying stream. -/
lemma readCalls_zero (rd : Reader σ ε) (t : RefTake σ) (C : Nat) (h : t.limit = 0) :
    readCalls rd t C = [] := by
  unfold readCalls
  rw [read_zero (logReader rd) ⟨(t.inner, []), t.limit⟩ C h]
  rfl

/-- With a positive counter, `read` makes exactly one call into the
underlying stream, requesting a slice of length `min C limit`. -/
lemma readCalls_pos (rd : Reader σ ε) (t : RefTake σ) (C : Nat) (h : 0 < t.limit) :
    readCalls rd t C = [Call.readCall (min C t.limit)] := by
  unfold readCalls
  rw [read_pos_eq (logReader rd) ⟨(t.inner, []), t.limit⟩ C h]
  rcases hv : rd.read t.inner (min C t.limit) with ⟨v, s1⟩
  have hlog : (logReader rd).read ((⟨(t.inner, []), t.limit⟩ : RefTake (σ × List Call)).inner)
      (min C (⟨(t.inner, []), t.limit⟩ : RefTake (σ × List Call)).limit)
      = (v, (s1, [Call.readCall (min C t.limit)])) := by
    simp [logReader, hv]
  rw [hlog]
  cases v with
  | error e => rfl
  | ok m =>
    dsimp only
    split <;> rfl

/-- At a zero counter, `fill_buf` makes no call into the underlying stream. -/
lemma fillBufCalls_zero (rd : Reader σ ε) (t : RefTake σ) (h : t.limit = 0) :
    fillBufCalls rd t = [] := by
  unfold fillBufCalls RefTake.fill_buf
  rw [if_pos h]

/-- `consume` forwards exactly one `consume` call carrying the clamped
amount `min amt limit` to the underlying stream. -/
lemma consumeCalls_eq (rd : Reader σ ε) (t : RefTake σ) (amt : Nat) :
    consumeCalls rd t amt = [Call.consumeCall (min amt t.limit)] := by
  unfold consumeCalls RefTake.consume logReader
  rfl

/-- C1: over any sequence of read calls the total bytes returned never
exceeds the starting counter; once the counter is zero every further read
returns 0 bytes with no error and no state change; a read never increases
the counter, `fill_buf` leaves it unchanged, and no decrement underflows:
a successful read removes exactly `n` from the counter
(`t1.limit + n = t.limit` over `Nat`) and consume removes exactly the
clamped amount (`min amt limit`). -/
theorem c1_limit_budget_invariants (rd : Reader σ ε) (t : RefTake σ)
    (Cs : List Nat) (C amt : Nat) :
    (runReads rd t Cs).1 ≤ t.limit
    ∧ (t.limit = 0 → RefTake.read rd t C = .ok 0 t)
    ∧ ((RefTake.read rd t C).state).limit ≤ t.limit
    ∧ (∀ n t1, RefTake.read rd t C = .ok n t1 → t1.limit + n = t.limit)
    ∧ ((RefTake.fill_buf rd t).2).limit = t.limit
    ∧ (RefTake.consume rd t amt).limit + min amt t.limit = t.limit := by
  refine ⟨?_, read_zero rd t C, ?_,
    fun n t1 h => read_ok_limit rd t C n t1 h, fill_buf_limit rd t, ?_⟩
  · have hb := runReads_budget rd Cs t
    omega
  · cases hr : RefTake.read rd t C with
    | ok n t1 =>
      have hl := read_ok_limit rd t C n t1 hr
      dsimp [ReadResult.state]
      omega
    | err e t1 =>
      have hl := read_err_limit rd t C e t1 hr
      dsimp [ReadResult.state]
      omega
    | fatal t1 =>
      have hl := read_fatal_limit rd t C t1 hr
      dsimp [ReadResult.state]
      omega
  · dsimp [RefTake.consume]
    omega

/-- C1 exercised concretely: limit 6 over six bytes with reads of capacity
2, 3, 4, 1 returns at most 6 bytes in total, and at a zero counter a read
returns 0 bytes without error or state change. -/
theorem c1_limit_budget_invariants_witness :
    (runReads cursorReader ⟨⟨[10, 20, 30, 40, 50, 60], 0⟩, 6⟩ [2, 3, 4, 1]).1 ≤ 6
    ∧ RefTake.read cursorReader ⟨⟨[10, 20, 30, 40, 50, 60], 6⟩, 0⟩ 5
        = .ok 0 ⟨⟨[10, 20, 30, 40, 50, 60], 6⟩, 0⟩ := by
  constructor
  · exact (c1_limit_budget_invariants cursorReader
      ⟨⟨[10, 20, 30, 40, 50, 60], 0⟩, 6⟩ [2, 3, 4, 1] 5 0).1
  · exact (c1_limit_budget_invariants cursorReader
      ⟨⟨[10, 20, 30, 40, 50, 60], 6⟩, 0⟩ [2, 3, 4, 1] 5 0).2.1 rfl

/-- C2: with a positive counter, a read with caller capacity `C` issues
exactly one request to the underlying stream, for a slice of length
`min C limit` (hence never more than `min C limit`), and when the stream
honours the `Read` contract the returned count satisfies `n ≤ min C limit`
with the counter decremented by exactly `n`. -/
theorem c2_read_requests_and_count (rd : Reader σ ε) (hconf : Conforming rd)
    (t : RefTake σ) (C : Nat) (hpos : 0 < t.limit) :
    readCalls rd t C = [Call.readCall (min C t.limit)]
    ∧ (∀ n t1, RefTake.read rd t C = .ok n t1 →
        n ≤ min C t.limit ∧ t1.limit + n = t.limit) := by
  refine ⟨readCalls_pos rd t C hpos, fun n t1 h => ?_⟩
  obtain ⟨hinner, hn⟩ := read_ok_inner rd t C n t1 hpos h
  exact ⟨hconf t.inner (min C t.limit) n t1.inner hinner,
    read_ok_limit rd t C n t1 h⟩

/-- C2 exercised concretely: limit 3 over four bytes with capacity 5
requests exactly `min 5 3 = 3` bytes and returns 3, leaving the counter 0. -/
theorem c2_read_requests_and_count_witness :
    readCalls cursorReader ⟨⟨[1, 2, 3, 4], 0⟩, 3⟩ 5 = [Call.readCall (min 5 3)]
    ∧ (3 ≤ min 5 3 ∧ 0 + 3 = 3) := by
  have h := c2_read_requests_and_count cursorReader cursorReader_conforming
    ⟨⟨[1, 2, 3, 4], 0⟩, 3⟩ 5 (by decide)
  exact ⟨h.1, h.2 3 ⟨⟨[1, 2, 3, 4], 3⟩, 0⟩ (by decide)⟩

/-- C3: at a zero counter, read returns 0 bytes without error, without any
state change and without a single call into the underlying stream; in
particular a freshly wrapped view with limit 0 reads 0 bytes and never
touches the stream. -/
theorem c3_zero_limit_short_circuit (rd : Reader σ ε) (t : RefTake σ) (C : Nat)
    (h : t.limit = 0) (s : σ) (C2 : Nat) :
    RefTake.read rd t C = .ok 0 t
    ∧ readCalls rd t C = []
    ∧ RefTake.read rd (RefTake.wrap s 0) C2 = .ok 0 (RefTake.wrap s 0)
    ∧ readCalls rd (RefTake.wrap s 0) C2 = [] :=
  ⟨read_zero rd t C h, readCalls_zero rd t C h,
   read_zero rd (RefTake.wrap s 0) C2 rfl,
   readCalls_zero rd (RefTake.wrap s 0) C2 rfl⟩

/-- C3 exercised concretely on a stub stream that would report an error if
it were ever invoked: wrapping it with limit 0 and reading returns 0 bytes
and records no call into the stub. -/
theorem c3_zero_limit_short_circuit_witness :
    RefTake.read failReader (RefTake.wrap () 0) 8 = .ok 0 (RefTake.wrap () 0)
    ∧ readCalls failReader (RefTake.wrap () 0) 8 = [] := by
  have h := c3_zero_limit_short_circuit failReader (RefTake.wrap () 0) 8 rfl () 8
  exact ⟨h.1, h.2.1⟩

/-- C4: `fill_buf` at a zero counter returns an empty slice without touching
the underlying stream; at a positive counter it returns exactly the prefix
of the underlying look-ahead buffer of length `min buf.length limit`, whose
length is exactly (hence never more than) `min buf.length limit`. -/
theorem c4_fill_buf_caps_lookahead (rd : Reader σ ε) (t : RefTake σ) :
    (t.limit = 0 → RefTake.fill_buf rd t = (.ok [], t) ∧ fillBufCalls rd t = [])
    ∧ (0 < t.limit → ∀ buf s1, rd.fill_buf t.inner = (.ok buf, s1) →
        RefTake.fill_buf rd t
          = (.ok (buf.take (min buf.length t.limit)), ⟨s1, t.limit⟩)
        ∧ (buf.take (min buf.length t.limit)).length = min buf.length t.limit) := by
  refine ⟨fun h0 => ⟨?_, fillBufCalls_zero rd t h0⟩, fun hpos buf s1 hb => ⟨?_, ?_⟩⟩
  · unfold RefTake.fill_buf
    rw [if_pos h0]
  · unfold RefTake.fill_buf
    rw [if_neg (by omega), hb]
  · rw [List.length_take]
    omega

/-- C4 exercised concretely: limit 4 over the six-byte look-ahead buffer of
a cursor yields exactly the four-byte prefix, and at a zero counter the
empty slice with no call into the stream. -/
theorem c4_fill_buf_caps_lookahead_witness :
    RefTake.fill_buf cursorReader ⟨⟨[1, 2, 3, 4, 5, 6], 0⟩, 4⟩
      = (.ok ([1, 2, 3, 4, 5, 6].take (min 6 4)), ⟨⟨[1, 2, 3, 4, 5, 6], 0⟩, 4⟩)
    ∧ RefTake.fill_buf failReader (⟨(), 0⟩ : RefTake Unit) = (.ok [], ⟨(), 0⟩)
    ∧ fillBufCalls failReader (⟨(), 0⟩ : RefTake Unit) = [] := by
  have h4 := (c4_fill_buf_caps_lookahead cursorReader
    ⟨⟨[1, 2, 3, 4, 5, 6], 0⟩, 4⟩).2 (by decide) [1, 2, 3, 4, 5, 6]
    ⟨[1, 2, 3, 4, 5, 6], 0⟩ rfl
  have h0 := (c4_fill_buf_caps_lookahead failReader (⟨(), 0⟩ : RefTake Unit)).1 rfl
  exact ⟨h4.1, h0.1, h0.2⟩

/-- C5: `consume amt` behaves identically to `consume (min amt limit)`: the
counter drops by the clamped amount (to 0 when `amt ≥ limit`, never below),
and the underlying stream receives exactly one consume call carrying the
clamped amount, not the requested one.  The operation is a total function
with no error outcome. -/
theorem c5_consume_clamps (rd : Reader σ ε) (t : RefTake σ) (amt : Nat) :
    RefTake.consume rd t amt = RefTake.consume rd t (min amt t.limit)
    ∧ (RefTake.consume rd t amt).limit = t.limit - min amt t.limit
    ∧ (t.limit ≤ amt → (RefTake.consume rd t amt).limit = 0)
    ∧ consumeCalls rd t amt = [Call.consumeCall (min amt t.limit)] := by
  have hmm : min (min amt t.limit) t.limit = min amt t.limit := by omega
  refine ⟨?_, rfl, fun hge => ?_, consumeCalls_eq rd t amt⟩
  · unfold RefTake.consume
    dsimp only
    rw [hmm]
  · dsimp [RefTake.consume]
    omega

/-- C5 exercised concretely: consuming 10 at limit 3 equals consuming 3,
drives the counter to 0, and forwards exactly `consume 3` to the stream. -/
theorem c5_consume_clamps_witness :
    RefTake.consume cursorReader ⟨⟨[1, 2, 3, 4, 5], 0⟩, 3⟩ 10
      = RefTake.consume cursorReader ⟨⟨[1, 2, 3, 4, 5], 0⟩, 3⟩ (min 10 3)
    ∧ (RefTake.consume cursorReader ⟨⟨[1, 2, 3, 4, 5], 0⟩, 3⟩ 10).limit = 0
    ∧ consumeCalls cursorReader ⟨⟨[1, 2, 3, 4, 5], 0⟩, 3⟩ 10
        = [Call.consumeCall (min 10 3)] := by
  have h := c5_consume_clamps cursorReader ⟨⟨[1, 2, 3, 4, 5], 0⟩, 3⟩ 10
  exact ⟨h.1, h.2.2.1 (by decide), h.2.2.2⟩

/-- C6: when the underlying stream reports an I/O error from `read` or
`fill_buf`, the adapter propagates that exact error value to the caller and
leaves the counter unchanged. -/
theorem c6_error_propagation (rd : Reader σ ε) (t : RefTake σ) (C : Nat)
    (e : ε) (s1 : σ) (hpos : 0 < t.limit) :
    (rd.read t.inner (min C t.limit) = (.error e, s1) →
      RefTake.read rd t C = .err e ⟨s1, t.limit⟩)
    ∧ (rd.fill_buf t.inner = (.error e, s1) →
      RefTake.fill_buf rd t = (.error e, ⟨s1, t.limit⟩)) := by
  refine ⟨fun h => read_pos_err_case rd t C e s1 hpos h, fun h => ?_⟩
  unfold RefTake.fill_buf
  rw [if_neg (by omega), h]

/-- C6 exercised concretely: a stream failing with error code 7 makes both
adapter operations return error 7 with the counter still 2. -/
theorem c6_error_propagation_witness :
    RefTake.read failReader (⟨(), 2⟩ : RefTake Unit) 4 = .err 7 ⟨(), 2⟩
    ∧ RefTake.fill_buf failReader (⟨(), 2⟩ : RefTake Unit) = (.error 7, ⟨(), 2⟩) := by
  have h := c6_error_propagation failReader (⟨(), 2⟩ : RefTake Unit) 4 7 () (by decide)
  exact ⟨h.1 rfl, h.2 rfl⟩

/-- C7: when the underlying stream reports more bytes than the counter
permits, the adapter aborts with the fatal assertion: the outcome is
neither a successful read (no silent clamping) nor a recoverable error. -/
theorem c7_overreport_is_fatal (rd : Reader σ ε) (t : RefTake σ) (C n : Nat)
    (s1 : σ) (hpos : 0 < t.limit)
    (hinner : rd.read t.inner (min C t.limit) = (.ok n, s1))
    (hover : t.limit < n) :
    RefTake.read rd t C = .fatal ⟨s1, t.limit⟩
    ∧ (∀ m t1, RefTake.read rd t C ≠ .ok m t1)
    ∧ (∀ e t1, RefTake.read rd t C ≠ .err e t1) := by
  have hf := read_pos_fatal_case rd t C n s1 hpos hinner hover
  refine ⟨hf, fun m t1 h => ?_, fun e t1 h => ?_⟩
  · rw [hf] at h
    cases h
  · rw [hf] at h
    cases h

/-- C7 exercised concretely: a broken stream claiming 100 bytes against a
limit of 3 drives the adapter into the fatal outcome. -/
theorem c7_overreport_is_fatal_witness :
    RefTake.read overReader (⟨(), 3⟩ : RefTake Unit) 5 = .fatal ⟨(), 3⟩ :=
  (c7_overreport_is_fatal overReader (⟨(), 3⟩ : RefTake Unit) 5 100 ()
    (by decide) rfl (by decide)).1

/-- C8: `set_limit` overwrites the counter unconditionally and touches
nothing else; `current_limit` reports the counter; after `set_limit L2`,
any read sequence yields at most `L2` bytes, and over a cursor that still
holds at least `L2` bytes a single large-enough read yields exactly `L2`
bytes, independent of the earlier limit or position. -/
theorem c8_set_limit_resets_budget (rd : Reader σ ε) (t : RefTake σ) (L2 : Nat)
    (Cs : List Nat) (data : List Nat) (pos C : Nat)
    (hdata : L2 ≤ data.length - pos) (hC : L2 ≤ C) :
    (RefTake.set_limit t L2).limit = L2
    ∧ (RefTake.set_limit t L2).inner = t.inner
    ∧ RefTake.current_limit t = t.limit
    ∧ (runReads rd (RefTake.set_limit t L2) Cs).1 ≤ L2
    ∧ RefTake.read cursorReader ⟨⟨data, pos⟩, L2⟩ C
        = .ok L2 ⟨⟨data, pos + L2⟩, 0⟩ := by
  refine ⟨rfl, rfl, rfl, ?_, ?_⟩
  · have hb := runReads_budget rd Cs (RefTake.set_limit t L2)
    have hsl : (RefTake.set_limit t L2).limit = L2 := rfl
    omega
  · rcases Nat.eq_zero_or_pos L2 with h0 | hpos
    · subst h0
      exact read_zero cursorReader ⟨⟨data, pos⟩, 0⟩ C rfl
    · have hn : min (min C L2) (data.length - pos) = L2 := by omega
      have hinner : cursorReader.read ⟨data, pos⟩ (min C L2)
          = (.ok L2, ⟨data, pos + L2⟩) := by
        simp [cursorReader, hn]
      have hres := read_pos_ok_case cursorReader ⟨⟨data, pos⟩, L2⟩ C L2
        ⟨data, pos + L2⟩ hpos hinner (le_refl L2)
      rw [hres]
      simp

/-- C8 exercised on the spec's own example: after three bytes of a
nine-byte stream are consumed, `set_limit 2` makes exactly two further
bytes available. -/
theorem c8_set_limit_resets_budget_witness :
    (RefTake.set_limit (⟨⟨[1, 2, 3, 4, 5, 6, 7, 8, 9], 3⟩, 0⟩ : RefTake Cursor) 2).limit = 2
    ∧ RefTake.read cursorReader ⟨⟨[1, 2, 3, 4, 5, 6, 7, 8, 9], 3⟩, 2⟩ 10
        = .ok 2 ⟨⟨[1, 2, 3, 4, 5, 6, 7, 8, 9], 5⟩, 0⟩ := by
  have h := c8_set_limit_resets_budget cursorReader
    (⟨⟨[1, 2, 3, 4, 5, 6, 7, 8, 9], 3⟩, 0⟩ : RefTake Cursor) 2 []
    [1, 2, 3, 4, 5, 6, 7, 8, 9] 3 10 (by decide) (by decide)
  exact ⟨h.1, h.2.2.2.2⟩

/-- C9: `fill_buf` never modifies the counter, whichever of the three paths
it takes (zero short-circuit, success, propagated error). -/
theorem c9_fill_buf_frame (rd : Reader σ ε) (t : RefTake σ) :
    ((RefTake.fill_buf rd t).2).limit = t.limit :=
  fill_buf_limit rd t

/-- C10: against any stream honouring the `Read` contract the fatal
assertion is unreachable, and the counter decrement of a successful read
never underflows (it removes exactly `n ≤ limit`). -/
theorem c10_fatal_unreachable_when_conforming (rd : Reader σ ε)
    (hconf : Conforming rd) (t : RefTake σ) (C : Nat) :
    (∀ t1, RefTake.read rd t C ≠ .fatal t1)
    ∧ (∀ n t1, RefTake.read rd t C = .ok n t1 →
        n ≤ t.limit ∧ t1.limit + n = t.limit) := by
  constructor
  · intro t1 h
    by_cases h0 : t.limit = 0
    · rw [read_zero rd t C h0] at h
      cases h
    · rcases hv : rd.read t.inner (min C t.limit) with ⟨v, s1⟩
      cases v with
      | error e =>
        rw [read_pos_err_case rd t C e s1 (by omega) hv] at h
        cases h
      | ok m =>
        have hm : m ≤ t.limit :=
          le_trans (hconf t.inner (min C t.limit) m s1 hv) (Nat.min_le_right C t.limit)
        rw [read_pos_ok_case rd t C m s1 (by omega) hv hm] at h
        cases h
  · intro n t1 h
    by_cases h0 : t.limit = 0
    · rw [read_zero rd t C h0] at h
      cases h
      exact ⟨Nat.zero_le _, rfl⟩
    · obtain ⟨hinner, hn⟩ := read_ok_inner rd t C n t1 (by omega) h
      exact ⟨hn, read_ok_limit rd t C n t1 h⟩

/-- C10 exercised concretely: against a conforming cursor, a read at limit 2
does not hit the fatal outcome. -/
theorem c10_fatal_unreachable_when_conforming_witness :
    RefTake.read cursorReader ⟨⟨[5, 6, 7], 0⟩, 2⟩ 9 ≠ .fatal ⟨⟨[5, 6, 7], 2⟩, 2⟩ :=
  (c10_fatal_unreachable_when_conforming cursorReader cursorReader_conforming
    ⟨⟨[5, 6, 7], 0⟩, 2⟩ 9).1 ⟨⟨[5, 6, 7], 2⟩, 2⟩
